import Mathlib

/-
Verification of the stream lifecycle registry surface in core/routing.go
(rtsp-stream). The Go source is embedded shallowly: pure helpers become
Lean functions, the HTTP handler branch under scrutiny becomes a function
from its observable inputs to an outcome record, the background cleaning
goroutine becomes an explicit event/timing model, and the spec's claim
protocol for concurrent Start (whose handler body lives outside the
provided sources) is modelled from the spec as an atomic-step transition
system.  Go runtime panics are modelled as `none`, Go `error` results as
`Except String`.
-/

set_option maxRecDepth 4000

/-- Go `strings.Split(path, "/")` restricted to the one-character separator
used by `determineHost`.  Go semantics for a non-empty separator: splitting
the empty string yields `[""]`, a leading separator yields a leading empty
field, and the result always has one more element than the number of
separators; in particular it is never empty. -/
def goSplitSlash : List Char → List (List Char)
  | [] => [[]]
  | c :: rest =>
    if c = '/' then [] :: goSplitSlash rest
    else
      match goSplitSlash rest with
      | h :: t => (c :: h) :: t
      | [] => [[c]]

/-- Embedding of `determineHost` (core/routing.go):
`parts := strings.Split(path, "/"); if len(parts) >= 1 { return parts[1] }; return ""`.
The indexing expression `parts[1]` is modelled with `List.get?`: `none`
models the Go runtime panic (index out of range) raised when the guard
admits a slice of length exactly 1. -/
def determineHost (path : String) : Option String :=
  let parts := goSplitSlash path.data
  if parts.length ≥ 1 then (parts.get? 1).map (fun cs => String.mk cs)
  else some ""

/-- The configuration fields of `config.Specification` consumed by
core/routing.go: the storage root, the list-endpoint toggle, and the
cleanup period (modelled as a natural number of time units). -/
structure Specification where
  storeDir : String
  listEndpoint : Bool
  cleanupTime : Nat
deriving DecidableEq

/-- HTTP methods used by the router registrations in `GetRouter`. -/
inductive Method
  | get
  | post
deriving DecidableEq

/-- One route registration on the `httprouter` router: a method and a
pattern string. -/
structure Route where
  method : Method
  pattern : String
deriving DecidableEq

/-- The abstraction of `streaming.Stream` needed by
`handleAlreadyRunningStream`: the handler reads only `s.Streak.IsActive()`
and `s.Path` (the serve path).  `Streak` itself is defined outside the
provided sources; only the boolean its `IsActive` method returns matters
here.  (Named with its Go package qualifier, `streaming.Stream`, since a
bare `Stream` clashes with a Lean core class.) -/
structure Streaming.Stream where
  path : String
  streakActive : Bool
deriving DecidableEq

/-- The `Controller` value constructed by `GetRouter`:
`Controller{config, map[string]streaming.Stream{}, fileServer}`.  The Go
map is modelled as an association list, empty at construction. -/
structure Controller where
  spec : Specification
  streams : List (String × Streaming.Stream)
deriving DecidableEq

/-- Embedding of the route-registration part of `GetRouter`
(core/routing.go): `GET /list` is registered first and only when
`config.ListEndpoint` holds; `POST /start` and `GET /stream/*filepath`
are registered unconditionally.  The returned pair mirrors
`(router, &controllers)`. -/
def GetRouter (config : Specification) : List Route × Controller :=
  ((if config.listEndpoint then [⟨Method.get, "/list"⟩] else []) ++
    [⟨Method.post, "/start"⟩, ⟨Method.get, "/stream/*filepath"⟩],
   ⟨config, []⟩)

/-- Start time (since `GetRouter` launched the goroutine) of the n-th
execution of `cleanUnused` by the background loop
`for { <-time.After(config.CleanupTime); controllers.cleanUnused() }`.
The timer is idealised as firing after exactly `cleanupTime` units.
`dur n` is the (arbitrary) running time of the n-th sweep; the loop is a
single sequential goroutine, so the next timer wait begins only when the
previous sweep has returned. -/
def sweepBegin (c : Specification) (dur : Nat → Nat) : Nat → Nat
  | 0 => c.cleanupTime
  | n + 1 => sweepBegin c dur n + dur n + c.cleanupTime

/-- Completion time of the n-th sweep: its start time plus its duration. -/
def sweepFinish (c : Specification) (dur : Nat → Nat) (n : Nat) : Nat :=
  sweepBegin c dur n + dur n

/-- State of the background cleaning goroutine: how many sweeps it has
performed so far. -/
structure LoopState where
  sweepsDone : Nat
deriving DecidableEq

/-- One full iteration of the background goroutine launched by `GetRouter`:
`for { <-time.After(config.CleanupTime); controllers.cleanUnused() }`.
The body receives from the timer channel only; it contains no select on a
quit or shutdown channel and no return or break statement, so the
iteration's result does not depend on any external stop request
(`stopRequested`) and is never `none` (loop exit): the loop runs one sweep
and continues, unconditionally. -/
def cleanupLoopStep (stopRequested : Bool) (s : LoopState) : Option LoopState :=
  some ⟨s.sweepsDone + 1⟩

/-- The goroutine state after `n` iterations under a given schedule of
external stop requests (`stop k` is whether shutdown was being requested
during iteration `k`).  Were an iteration ever to exit (`none`), the state
would stay frozen thereafter. -/
def cleanupLoopRun (stop : Nat → Bool) : Nat → LoopState
  | 0 => ⟨0⟩
  | n + 1 =>
    match cleanupLoopStep (stop n) (cleanupLoopRun stop n) with
    | some s => s
    | none => cleanupLoopRun stop n

/-- The opening curly brace character (written via its code point). -/
def lbrace : Char := Char.ofNat 123

/-- The closing curly brace character (written via its code point). -/
def rbrace : Char := Char.ofNat 125

/-- A JSON value as recognised by Go encoding/json; numbers keep their
source text, since `streamDto` never decodes one. -/
inductive JsonValue
  | null
  | bool (b : Bool)
  | num (text : String)
  | str (s : String)
  | arr (elems : List JsonValue)
  | obj (members : List (String × JsonValue))

/-- JSON insignificant whitespace. -/
def isJsonWs (c : Char) : Bool :=
  c == ' ' || c == '\t' || c == '\n' || c == '\r'

/-- Drop leading JSON whitespace. -/
def skipJsonWs : List Char → List Char
  | [] => []
  | c :: rest => if isJsonWs c then skipJsonWs rest else c :: rest

/-- Value of a hexadecimal digit, if the character is one. -/
def hexDigitVal (c : Char) : Option Nat :=
  if '0' ≤ c ∧ c ≤ '9' then some (c.toNat - '0'.toNat)
  else if 'a' ≤ c ∧ c ≤ 'f' then some (c.toNat - 'a'.toNat + 10)
  else if 'A' ≤ c ∧ c ≤ 'F' then some (c.toNat - 'A'.toNat + 10)
  else none

/-- Resolution of a single-character JSON string escape. -/
def jsonEscChar (e : Char) : Option Char :=
  if e = '"' then some '"'
  else if e = '\\' then some '\\'
  else if e = '/' then some '/'
  else if e = 'b' then some (Char.ofNat 8)
  else if e = 'f' then some (Char.ofNat 12)
  else if e = 'n' then some '\n'
  else if e = 'r' then some '\r'
  else if e = 't' then some '\t'
  else none

/-- Body of a JSON string literal, after its opening quote: returns the
decoded characters and the remainder after the closing quote.  Raw control
characters are rejected, escapes are decoded (a `\u` code unit becomes the
corresponding character; surrogate-pair recombination, which Go performs,
does not arise for the inputs considered here). -/
def parseJsonStrBody : List Char → Option (List Char × List Char)
  | [] => none
  | c :: rest =>
    if c = '"' then some ([], rest)
    else if c = '\\' then
      match rest with
      | 'u' :: h1 :: h2 :: h3 :: h4 :: rest' =>
        match hexDigitVal h1, hexDigitVal h2, hexDigitVal h3, hexDigitVal h4 with
        | some a, some b, some d, some e =>
          match parseJsonStrBody rest' with
          | some (cs, rem) =>
            some (Char.ofNat (((a * 16 + b) * 16 + d) * 16 + e) :: cs, rem)
          | none => none
        | _, _, _, _ => none
      | e :: rest' =>
        match jsonEscChar e with
        | some ch =>
          match parseJsonStrBody rest' with
          | some (cs, rem) => some (ch :: cs, rem)
          | none => none
        | none => none
      | [] => none
    else if c.toNat < 32 then none
    else
      match parseJsonStrBody rest with
      | some (cs, rem) => some (c :: cs, rem)
      | none => none

/-- Take the maximal run of decimal digits from the head of the input. -/
def takeDigits : List Char → List Char × List Char
  | [] => ([], [])
  | c :: rest =>
    if '0' ≤ c ∧ c ≤ '9' then
      let p := takeDigits rest
      (c :: p.1, p.2)
    else ([], c :: rest)

/-- Exponent tail of a JSON number after the `e`/`E` marker: an optional
sign and at least one digit. -/
def parseJsonNumExpTail (rest : List Char) : Option (List Char × List Char) :=
  let p := match rest with
    | '+' :: r => (['+'], r)
    | '-' :: r => (['-'], r)
    | _ => (([] : List Char), rest)
  match takeDigits p.2 with
  | ([], _) => none
  | (ds, rem) => some (p.1 ++ ds, rem)

/-- Optional exponent part of a JSON number. -/
def parseJsonNumExp (cs : List Char) : Option (List Char × List Char) :=
  match cs with
  | 'e' :: rest => (parseJsonNumExpTail rest).map (fun p => ('e' :: p.1, p.2))
  | 'E' :: rest => (parseJsonNumExpTail rest).map (fun p => ('E' :: p.1, p.2))
  | _ => some ([], cs)

/-- Optional fraction part of a JSON number, then the optional exponent. -/
def parseJsonNumFrac (cs : List Char) : Option (List Char × List Char) :=
  match cs with
  | '.' :: rest =>
    match takeDigits rest with
    | ([], _) => none
    | (ds, rem) => (parseJsonNumExp rem).map (fun p => ('.' :: ds ++ p.1, p.2))
  | _ => parseJsonNumExp cs

/-- A JSON number at the head of the input, per the RFC 8259 grammar Go
enforces: optional minus, integer part without leading zeros, optional
fraction, optional exponent. -/
def parseJsonNum (cs : List Char) : Option (List Char × List Char) :=
  let sp := match cs with
    | '-' :: rest => ((['-'] : List Char), rest)
    | _ => (([] : List Char), cs)
  match sp.2 with
  | '0' :: rest => (parseJsonNumFrac rest).map (fun p => (sp.1 ++ '0' :: p.1, p.2))
  | c :: rest =>
    if '1' ≤ c ∧ c ≤ '9' then
      let dp := takeDigits rest
      (parseJsonNumFrac dp.2).map (fun p => (sp.1 ++ c :: dp.1 ++ p.1, p.2))
    else none
  | [] => none

mutual

/-- One JSON value at the head of the input (leading whitespace allowed),
returning it with the unconsumed remainder.  `fuel` bounds the recursion
depth; exhausting it is a parse failure, which cannot happen for inputs
shorter than the fuel `jsonUnmarshalStreamDto` supplies. -/
def parseJsonVal : Nat → List Char → Option (JsonValue × List Char)
  | 0, _ => none
  | fuel + 1, cs =>
    match skipJsonWs cs with
    | [] => none
    | c :: rest =>
      if c = '"' then
        (parseJsonStrBody rest).map (fun p => (JsonValue.str (String.mk p.1), p.2))
      else if c = 't' then
        match rest with
        | 'r' :: 'u' :: 'e' :: rem => some (JsonValue.bool true, rem)
        | _ => none
      else if c = 'f' then
        match rest with
        | 'a' :: 'l' :: 's' :: 'e' :: rem => some (JsonValue.bool false, rem)
        | _ => none
      else if c = 'n' then
        match rest with
        | 'u' :: 'l' :: 'l' :: rem => some (JsonValue.null, rem)
        | _ => none
      else if c = '[' then
        match skipJsonWs rest with
        | ']' :: rem => some (JsonValue.arr [], rem)
        | cs2 => (parseJsonElems fuel cs2).map (fun p => (JsonValue.arr p.1, p.2))
      else if c = lbrace then
        match skipJsonWs rest with
        | d :: rem =>
          if d = rbrace then some (JsonValue.obj [], rem)
          else (parseJsonMembers fuel (d :: rem)).map (fun p => (JsonValue.obj p.1, p.2))
        | [] => none
      else
        (parseJsonNum (c :: rest)).map (fun p => (JsonValue.num (String.mk p.1), p.2))

/-- The comma-separated elements of a non-empty JSON array, up to and
including the closing bracket. -/
def parseJsonElems : Nat → List Char → Option (List JsonValue × List Char)
  | 0, _ => none
  | fuel + 1, cs =>
    match parseJsonVal fuel cs with
    | none => none
    | some (v, rem) =>
      match skipJsonWs rem with
      | ',' :: rem2 =>
        match parseJsonElems fuel rem2 with
        | some (vs, rem3) => some (v :: vs, rem3)
        | none => none
      | ']' :: rem2 => some ([v], rem2)
      | _ => none

/-- The comma-separated members of a non-empty JSON object, up to and
including the closing brace. -/
def parseJsonMembers : Nat → List Char → Option (List (String × JsonValue) × List Char)
  | 0, _ => none
  | fuel + 1, cs =>
    match skipJsonWs cs with
    | c :: rest =>
      if c = '"' then
        match parseJsonStrBody rest with
        | some (key, rem) =>
          match skipJsonWs rem with
          | ':' :: rem2 =>
            match parseJsonVal fuel rem2 with
            | some (v, rem3) =>
              match skipJsonWs rem3 with
              | ',' :: rem4 =>
                match parseJsonMembers fuel rem4 with
                | some (ms, rem5) => some ((String.mk key, v) :: ms, rem5)
                | none => none
              | d :: rem4 =>
                if d = rbrace then some ([(String.mk key, v)], rem4)
                else none
              | [] => none
            | none => none
          | _ => none
        | none => none
      else none
    | [] => none

end

/-- The `streamDto` struct of core/routing.go: one field, `URI string`
with JSON tag "uri". -/
structure StreamDto where
  URI : String
deriving DecidableEq

/-- ASCII lower-casing, as Go's case-insensitive JSON field match uses. -/
def asciiLower (c : Char) : Char :=
  if 'A' ≤ c ∧ c ≤ 'Z' then Char.ofNat (c.toNat + 32) else c

/-- ASCII case-insensitive string equality (Go `strings.EqualFold`
restricted to ASCII, which is all the field tags here contain). -/
def eqFoldAscii (a b : String) : Bool :=
  a.data.map asciiLower == b.data.map asciiLower

/-- Go encoding/json field assignment for `streamDto`: members are applied
in order; a key matching the tag "uri" (exactly or case-insensitively)
must hold a JSON string, otherwise Unmarshal reports a type error; unknown
keys are ignored; a later duplicate overwrites an earlier one. -/
def applyStreamDtoFields (dto : StreamDto) :
    List (String × JsonValue) → Except String StreamDto
  | [] => Except.ok dto
  | (k, v) :: rest =>
    if eqFoldAscii k "uri" then
      match v with
      | JsonValue.str s => applyStreamDtoFields ⟨s⟩ rest
      | _ => Except.error "json: cannot unmarshal value into field of type string"
    else applyStreamDtoFields dto rest

/-- Go `json.Unmarshal(body, &dto)` for `streamDto`: the body must be one
well-formed JSON value followed by nothing but whitespace; a JSON object
assigns fields as above; JSON null leaves the zero value untouched; any
other top-level kind is a type error. -/
def jsonUnmarshalStreamDto (body : List Char) : Except String StreamDto :=
  match parseJsonVal (body.length + 2) body with
  | none => Except.error "invalid character: body is not well-formed JSON"
  | some (v, rem) =>
    if skipJsonWs rem ≠ [] then
      Except.error "invalid character after top-level value"
    else
      match v with
      | JsonValue.obj members => applyStreamDtoFields ⟨""⟩ members
      | JsonValue.null => Except.ok ⟨""⟩
      | _ => Except.error "json: cannot unmarshal value into Go value of type streamDto"

/-- True when the input holds an ASCII control byte (Go
`stringContainsCTLByte`: below 0x20 or equal to 0x7f). -/
def containsCTLByte (cs : List Char) : Bool :=
  cs.any (fun c => c.toNat < 32 || c.toNat == 127)

/-- ASCII letter. -/
def isAsciiAlpha (c : Char) : Bool :=
  if ('a' ≤ c ∧ c ≤ 'z') ∨ ('A' ≤ c ∧ c ≤ 'Z') then true else false

/-- A character permitted after the leading letter of a URL scheme. -/
def isSchemeTailChar (c : Char) : Bool :=
  if ('0' ≤ c ∧ c ≤ '9') ∨ c = '+' ∨ c = '-' ∨ c = '.' then true else false

/-- Worker for `getScheme`: `i` is the index reached in the original
input `orig`, whose suffix is the third argument. -/
def getSchemeAux (orig : List Char) (i : Nat) :
    List Char → Except String (List Char × List Char)
  | [] => Except.ok ([], orig)
  | c :: rest =>
    if isAsciiAlpha c then getSchemeAux orig (i + 1) rest
    else if isSchemeTailChar c then
      if i = 0 then Except.ok ([], orig) else getSchemeAux orig (i + 1) rest
    else if c = ':' then
      if i = 0 then Except.error "missing protocol scheme"
      else Except.ok (orig.take i, orig.drop (i + 1))
    else Except.ok ([], orig)

/-- Go net/url `getScheme`: split "scheme:rest".  Letters, digits and
`+ - .` may appear after a leading letter; a ':' before any other
character ends the scheme (an error if it comes first); any other
character means the URL has no scheme and is taken whole. -/
def getScheme (raw : List Char) : Except String (List Char × List Char) :=
  getSchemeAux raw 0 raw

/-- Hexadecimal digit test. -/
def isHexDigit (c : Char) : Bool := (hexDigitVal c).isSome

/-- Go net/url `unescape` error condition on a component: every '%' must
be followed by two hexadecimal digits ("invalid URL escape").  (The
mode-specific rejections of particular escaped host bytes do not arise
for the inputs considered here.) -/
def percentEscapesOk : List Char → Bool
  | [] => true
  | c :: rest =>
    if c = '%' then
      match rest with
      | a :: b :: rest' => isHexDigit a && isHexDigit b && percentEscapesOk rest'
      | _ => false
    else percentEscapesOk rest

/-- Split around the first occurrence of `sep` (Go `split(s, sep, true)`):
(before, after); when `sep` is absent the whole input is `before` and
`after` is empty, indistinguishable here from a trailing separator, which
none of the error conditions below can tell apart either. -/
def cutAtFirst (sep : Char) : List Char → List Char × List Char
  | [] => ([], [])
  | c :: rest =>
    if c = sep then ([], rest)
    else
      let p := cutAtFirst sep rest
      (c :: p.1, p.2)

/-- Index of the last occurrence of a character, if any. -/
def lastIndexOfChar (sep : Char) : List Char → Option Nat
  | [] => none
  | c :: rest =>
    match lastIndexOfChar sep rest with
    | some i => some (i + 1)
    | none => if c = sep then some 0 else none

/-- Go net/url `validOptionalPort`: empty, or ':' followed by decimal
digits only. -/
def validOptionalPort : List Char → Bool
  | [] => true
  | c :: rest =>
    if c = ':' then rest.all (fun d => if '0' ≤ d ∧ d ≤ '9' then true else false)
    else false

/-- Go net/url `parseHost` error conditions: a bracketed IPv6 literal must
close its bracket and be followed by a valid optional port; otherwise
everything after the last ':' must be a valid optional port; and
percent-escapes in the host must be well-formed. -/
def parseHostOk (host : List Char) : Bool :=
  match host with
  | '[' :: _ =>
    match lastIndexOfChar ']' host with
    | none => false
    | some i => validOptionalPort (host.drop (i + 1)) && percentEscapesOk host
  | _ =>
    (match lastIndexOfChar ':' host with
     | none => true
     | some i => validOptionalPort (host.drop i)) && percentEscapesOk host

/-- A character Go `validUserinfo` accepts in the userinfo subcomponent. -/
def isUserinfoChar (c : Char) : Bool :=
  isAsciiAlpha c ||
  (if '0' ≤ c ∧ c ≤ '9' then true else false) ||
  (['-', '.', '_', ':', '~', '!', '$', '&', Char.ofNat 39, '(', ')', '*', '+',
    ',', ';', '=', '%', '@'].contains c)

/-- Go net/url `parseAuthority` error conditions: the part before the last
'@' must be valid userinfo with well-formed escapes; the rest must be an
acceptable host. -/
def parseAuthorityOk (authority : List Char) : Bool :=
  match lastIndexOfChar '@' authority with
  | none => parseHostOk authority
  | some i =>
    (authority.take i).all isUserinfoChar &&
    percentEscapesOk (authority.take i) &&
    parseHostOk (authority.drop (i + 1))

/-- The authority-and-path tail of Go net/url `parse`: when an authority
is introduced by "//" (and the URL is not a schemeless "///..." path), it
runs up to the next '/' and must parse; the remaining path (and otherwise
the whole rest) must have well-formed percent-escapes (`setPath`). -/
def urlParseAuthPath (scheme rest : List Char) : Bool :=
  if (!scheme.isEmpty || !(List.isPrefixOf ['/', '/', '/'] rest)) &&
      List.isPrefixOf ['/', '/'] rest then
    let tail := rest.drop 2
    let acut := cutAtFirst '/' tail
    let path := if tail.contains '/' then '/' :: acut.2 else []
    if !(parseAuthorityOk acut.1) then true
    else !(percentEscapesOk path)
  else !(percentEscapesOk rest)

/-- Models the error behaviour of Go `net/url.Parse` (true iff Parse
returns a non-nil error).  Parse cuts the fragment at the first '#' and
runs `parse` on the rest: control bytes are rejected; "*" is accepted
whole; `getScheme` may fail; the query is cut at the first '?' and stored
unvalidated; a URL with a scheme whose rest does not begin with '/' is
opaque and accepted as-is; with no scheme, a ':' may not appear in the
first path segment; an authority introduced by "//" must be well-formed;
path and fragment percent-escapes must decode. -/
def urlParseHasErr (rawURL : List Char) : Bool :=
  let hcut := cutAtFirst '#' rawURL
  if containsCTLByte hcut.1 then true
  else if !(percentEscapesOk hcut.2) then true
  else if hcut.1 = ['*'] then false
  else
    match getScheme hcut.1 with
    | Except.error _ => true
    | Except.ok sr =>
      let rest := (cutAtFirst '?' sr.2).1
      if rest.head? = some '/' then urlParseAuthPath sr.1 rest
      else if !sr.1.isEmpty then false
      else if ((cutAtFirst '/' rest).1).contains ':' then true
      else urlParseAuthPath sr.1 rest

/-- Embedding of `validateURI` (core/routing.go): read the whole body,
`json.Unmarshal` it into a `streamDto`, then `url.Parse(dto.URI)`; a
parse error is reported as the error "Invalid URI".  Reading from an
in-memory body cannot fail, so that branch does not arise; a successful
validation returns the populated dto (which Go fills through the
pointer). -/
def validateURI (body : String) : Except String StreamDto :=
  match jsonUnmarshalStreamDto body.data with
  | Except.error e => Except.error e
  | Except.ok dto =>
    if urlParseHasErr dto.URI.data then Except.error "Invalid URI"
    else Except.ok dto

/-- An HTTP response as the handlers here produce it: either
`http.Error(w, msg, code)` or a 200 body with a Content-Type header. -/
inductive HttpResponse
  | httpError (msg : String) (code : Nat)
  | ok (contentType : String) (body : String)
deriving DecidableEq

/-- Lower-case hexadecimal digit for a value below 16. -/
def hexChar (n : Nat) : Char :=
  if n < 10 then Char.ofNat ('0'.toNat + n) else Char.ofNat ('a'.toNat + n - 10)

/-- Go `json.Marshal` string escaping (HTML escaping is on by default):
quote, backslash, the HTML-sensitive characters and control characters
are escaped; everything else passes through. -/
def goJsonEscapeChar (c : Char) : List Char :=
  if c = '"' then ['\\', '"']
  else if c = '\\' then ['\\', '\\']
  else if c = '\n' then ['\\', 'n']
  else if c = '\r' then ['\\', 'r']
  else if c = '\t' then ['\\', 't']
  else if c = '<' then ['\\', 'u', '0', '0', '3', 'c']
  else if c = '>' then ['\\', 'u', '0', '0', '3', 'e']
  else if c = '&' then ['\\', 'u', '0', '0', '2', '6']
  else if c.toNat < 32 then
    ['\\', 'u', '0', '0', hexChar (c.toNat / 16), hexChar (c.toNat % 16)]
  else [c]

/-- `json.Marshal(streamDto{URI: path})`: the object literal with the one
tagged field.  Marshalling a struct holding one string cannot fail, so the
handler's marshal-error branch is unreachable. -/
def marshalStreamDto (uri : String) : String :=
  String.mk (lbrace :: '"' :: 'u' :: 'r' :: 'i' :: '"' :: ':' :: '"' ::
    ((uri.data.map goJsonEscapeChar).flatten ++ ['"', rbrace]))

/-- Observable outcome of `handleAlreadyRunningStream`: how many times it
called `s.Restart`, whether it removed the key's registry entry (no
branch of the function touches the stream map, so every branch records
`false`), and the response written. -/
structure HandlerOutcome where
  restartCalls : Nat
  removedEntry : Bool
  response : HttpResponse
deriving DecidableEq

/-- Embedding of `handleAlreadyRunningStream` (core/routing.go).  When the
streak reports inactive, `s.Restart(spec, dir)` is called exactly once;
its result enters as `restartErr` (`none` = success).  On restart failure
the handler writes `http.Error(w, "Unexpected error", 500)` and returns
without a path; otherwise — after a successful restart, or whenever the
streak was already active — it marshals `streamDto{URI: s.Path}` and
writes it with Content-Type application/json.  `spec` and `dir` are only
forwarded to Restart. -/
def handleAlreadyRunningStream (s : Streaming.Stream) (spec : Specification)
    (dir : String) (restartErr : Option String) : HandlerOutcome :=
  if !s.streakActive then
    match restartErr with
    | some _ => ⟨1, false, HttpResponse.httpError "Unexpected error" 500⟩
    | none => ⟨1, false, HttpResponse.ok "application/json" (marshalStreamDto s.path)⟩
  else ⟨0, false, HttpResponse.ok "application/json" (marshalStreamDto s.path)⟩

/-- Modelled from the spec: `Controller.StartStreamHandler` and the
registry claim protocol are not among the provided sources.  The serve
path handed out for a key: §8 scenario 1 shows `/stream/<key>/index`, and
§3 makes it immutable after creation, a deterministic function of the
key's output location. -/
def servePathFor (key : String) : String := "/stream/" ++ key ++ "/index"

/-- Modelled from the spec (§3): the registry entry for one key as the
concurrent Start/sweeper race observes it — the session's immutable serve
path and its current liveness. -/
structure Session where
  servePath : String
  active : Bool
deriving DecidableEq

/-- Modelled from the spec: the state of the race for one fixed key: the
registry's entry for that key, if any, and how many process-creation
(spawn) calls have been issued in total. -/
structure RegState where
  entry : Option Session
  spawnCount : Nat
deriving DecidableEq

/-- Modelled from the spec (§4.2): one Start for the key, taken as a
single atomic step since the spec's claim protocol makes
lookup-claim-spawn-store atomic.  Absent key: spawn once, store an active
session, return its serve path.  Present and active: return the existing
path, no spawn.  Present and inactive: restart in place (one process
creation), same path. -/
def startOp (key : String) (st : RegState) : RegState × String :=
  match st.entry with
  | none =>
    (⟨some ⟨servePathFor key, true⟩, st.spawnCount + 1⟩, servePathFor key)
  | some s =>
    if s.active then (st, s.servePath)
    else (⟨some ⟨s.servePath, true⟩, st.spawnCount + 1⟩, s.servePath)

/-- Modelled from the spec (§4.4): one atomic sweeper action on the key:
stop and remove the entry only when its session is inactive; an active
session survives the sweep (Start wins when concurrent). -/
def sweepOp (st : RegState) : RegState :=
  match st.entry with
  | some s => if s.active then st else ⟨none, st.spawnCount⟩
  | none => st

/-- One step of an interleaving over the shared entry: a handler's Start
or a sweeper pass. -/
inductive Op
  | start
  | sweep
deriving DecidableEq

/-- Number of Start steps in an interleaving. -/
def countStart : List Op → Nat
  | [] => 0
  | Op.start :: rest => countStart rest + 1
  | Op.sweep :: rest => countStart rest

/-- Run an interleaving from a state, collecting the serve path each
Start step returned to its caller. -/
def runOps (key : String) (st : RegState) : List Op → RegState × List String
  | [] => (st, [])
  | Op.start :: rest =>
    let p := startOp key st
    let r := runOps key p.1 rest
    (r.1, p.2 :: r.2)
  | Op.sweep :: rest => runOps key (sweepOp st) rest

/-- Invariant of the race for `key`: either nothing has happened yet (no
entry, no spawn), or the one session exists, active, with the canonical
path, after exactly one spawn. -/
def RegInv (key : String) (st : RegState) : Prop :=
  (st.entry = none ∧ st.spawnCount = 0) ∨
  (st.entry = some ⟨servePathFor key, true⟩ ∧ st.spawnCount = 1)

/-- The post-first-Start configuration: the session exists, active, with
the canonical path, and exactly one spawn has been issued. -/
def RegDone (key : String) (st : RegState) : Prop :=
  st.entry = some ⟨servePathFor key, true⟩ ∧ st.spawnCount = 1

theorem runOps_nil (key : String) (st : RegState) : runOps key st [] = (st, []) := rfl

theorem runOps_start (key : String) (st : RegState) (rest : List Op) :
    runOps key st (Op.start :: rest) =
      ((runOps key (startOp key st).1 rest).1,
        (startOp key st).2 :: (runOps key (startOp key st).1 rest).2) := rfl

theorem runOps_sweep (key : String) (st : RegState) (rest : List Op) :
    runOps key st (Op.sweep :: rest) = runOps key (sweepOp st) rest := rfl

theorem startOp_from_inv (key : String) (st : RegState) (h : RegInv key st) :
    RegDone key (startOp key st).1 ∧ (startOp key st).2 = servePathFor key := by
  rcases h with ⟨he, hc⟩ | ⟨he, hc⟩
  · constructor
    · constructor <;> simp [startOp, he, hc]
    · simp [startOp, he]
  · constructor
    · constructor <;> simp [startOp, he, hc]
    · simp [startOp, he]

theorem sweepOp_of_done (key : String) (st : RegState) (h : RegDone key st) :
    sweepOp st = st := by
  obtain ⟨he, _⟩ := h
  simp [sweepOp, he]

theorem runOps_of_done (key : String) (ops : List Op) :
    ∀ st : RegState, RegDone key st →
      RegDone key (runOps key st ops).1 ∧
      ∀ p ∈ (runOps key st ops).2, p = servePathFor key := by
  induction ops with
  | nil => intro st h; simp [runOps_nil]; exact h
  | cons op rest ih =>
    intro st h
    cases op with
    | start =>
      have hs := startOp_from_inv key st (Or.inr h)
      have hr := ih (startOp key st).1 hs.1
      rw [runOps_start]
      refine ⟨hr.1, ?_⟩
      intro p hp
      rcases List.mem_cons.mp hp with hp | hp
      · rw [hp]; exact hs.2
      · exact hr.2 p hp
    | sweep =>
      rw [runOps_sweep, sweepOp_of_done key st h]
      exact ih st h

theorem runOps_length (key : String) (ops : List Op) :
    ∀ st : RegState, (runOps key st ops).2.length = countStart ops := by
  induction ops with
  | nil => intro st; simp [runOps_nil, countStart]
  | cons op rest ih =>
    intro st
    cases op with
    | start => rw [runOps_start]; simp [countStart, ih]
    | sweep => rw [runOps_sweep]; simp [countStart, ih]

/-- C2: in the spec's claim protocol, any interleaving of N ≥ 1 concurrent
Start steps for one key with any number of sweeper passes, beginning from
an absent registry entry, issues exactly one process-creation (spawn) call
in total, and every one of the N Start calls returns the same servePath. -/
theorem startRace_oneSpawn_samePath (key : String) (ops : List Op)
    (h : 0 < countStart ops) :
    (runOps key ⟨none, 0⟩ ops).1.spawnCount = 1 ∧
    (∀ p ∈ (runOps key ⟨none, 0⟩ ops).2, p = servePathFor key) ∧
    (runOps key ⟨none, 0⟩ ops).2.length = countStart ops := by
  induction ops with
  | nil => exact absurd h (by simp [countStart])
  | cons op rest ih =>
    cases op with
    | start =>
      have hs := startOp_from_inv key ⟨none, 0⟩ (Or.inl ⟨rfl, rfl⟩)
      have hr := runOps_of_done key rest (startOp key ⟨none, 0⟩).1 hs.1
      rw [runOps_start]
      refine ⟨hr.1.2, ?_, ?_⟩
      · intro p hp
        rcases List.mem_cons.mp hp with hp | hp
        · rw [hp]; exact hs.2
        · exact hr.2 p hp
      · simp [countStart, runOps_length]
    | sweep =>
      have hsw : sweepOp ⟨none, 0⟩ = ⟨none, 0⟩ := rfl
      rw [runOps_sweep, hsw]
      exact ih (by simpa [countStart] using h)

theorem startRace_oneSpawn_samePath_witness :
    0 < countStart [Op.start, Op.sweep, Op.start] ∧
    ((runOps "cam2" ⟨none, 0⟩ [Op.start, Op.sweep, Op.start]).1.spawnCount = 1 ∧
     (∀ p ∈ (runOps "cam2" ⟨none, 0⟩ [Op.start, Op.sweep, Op.start]).2,
        p = servePathFor "cam2") ∧
     (runOps "cam2" ⟨none, 0⟩ [Op.start, Op.sweep, Op.start]).2.length =
       countStart [Op.start, Op.sweep, Op.start]) :=
  ⟨by decide, startRace_oneSpawn_samePath "cam2" [Op.start, Op.sweep, Op.start] (by decide)⟩

/-- C1: the claim that key derivation is total (rejecting any path that
lacks the first-after-root segment instead of failing or mapping it to an
empty key) does not hold of the code: the guard `len(parts) >= 1` is
satisfied by every split result, so for any path without a '/' — including
the empty path — `parts[1]` is evaluated out of range (a Go runtime
panic, `none` here); and the path "/" is silently mapped to the empty
key.  A path with the expected segment still yields that segment. -/
theorem determineHost_evaluates_oob :
    determineHost "" = none ∧
    determineHost "stream" = none ∧
    determineHost "/" = some "" ∧
    determineHost "/cam1/index.m3u8" = some "cam1" := by decide

/-- C3: the claim that Start validation rejects `{"uri":"not a uri"}` with
a non-nil error fails on the code: the body is well-formed JSON and Go's
`url.Parse` accepts the string "not a uri" (it becomes a path), so
`validateURI` returns success and the request proceeds to the registry.
A body that is not well-formed JSON is still rejected. -/
theorem validateURI_accepts_not_a_uri :
    validateURI "\x7b\"uri\":\"not a uri\"\x7d" = Except.ok ⟨"not a uri"⟩ ∧
    validateURI "not json" =
      Except.error "invalid character: body is not well-formed JSON" := ⟨rfl, rfl⟩

/-- C4: for an existing session whose streak is inactive,
`handleAlreadyRunningStream` issues exactly one restart call, never
removes the registry entry, returns the session's existing servePath on
restart success, and on restart failure answers 500 ("Unexpected error")
without a servePath. -/
theorem handleInactive_restartsOnce (s : Streaming.Stream) (spec : Specification)
    (dir : String) (rerr : Option String) (h : s.streakActive = false) :
    (handleAlreadyRunningStream s spec dir rerr).restartCalls = 1 ∧
    (handleAlreadyRunningStream s spec dir rerr).removedEntry = false ∧
    (rerr = none →
      (handleAlreadyRunningStream s spec dir rerr).response =
        HttpResponse.ok "application/json" (marshalStreamDto s.path)) ∧
    (∀ e, rerr = some e →
      (handleAlreadyRunningStream s spec dir rerr).response =
        HttpResponse.httpError "Unexpected error" 500) := by
  cases rerr <;> simp [handleAlreadyRunningStream, h]

theorem handleInactive_restartsOnce_witness :
    (Streaming.Stream.mk "/stream/cam1/index" false).streakActive = false ∧
    ((handleAlreadyRunningStream ⟨"/stream/cam1/index", false⟩ ⟨"", false, 1⟩ "" none).restartCalls = 1 ∧
     (handleAlreadyRunningStream ⟨"/stream/cam1/index", false⟩ ⟨"", false, 1⟩ "" none).removedEntry = false ∧
     ((none : Option String) = none →
       (handleAlreadyRunningStream ⟨"/stream/cam1/index", false⟩ ⟨"", false, 1⟩ "" none).response =
         HttpResponse.ok "application/json" (marshalStreamDto "/stream/cam1/index")) ∧
     (∀ e, (none : Option String) = some e →
       (handleAlreadyRunningStream ⟨"/stream/cam1/index", false⟩ ⟨"", false, 1⟩ "" none).response =
         HttpResponse.httpError "Unexpected error" 500)) :=
  ⟨rfl, handleInactive_restartsOnce ⟨"/stream/cam1/index", false⟩ ⟨"", false, 1⟩ "" none rfl⟩

/-- C5: for an existing session whose streak is active,
`handleAlreadyRunningStream` issues no restart call and succeeds with the
session's existing servePath; the outcome does not depend on the restart
collaborator at all, so two sequential Starts on an active session return
identical results. -/
theorem handleActive_reusesPath (s : Streaming.Stream) (spec : Specification)
    (dir : String) (rerr rerr' : Option String) (h : s.streakActive = true) :
    (handleAlreadyRunningStream s spec dir rerr).restartCalls = 0 ∧
    (handleAlreadyRunningStream s spec dir rerr).response =
      HttpResponse.ok "application/json" (marshalStreamDto s.path) ∧
    handleAlreadyRunningStream s spec dir rerr =
      handleAlreadyRunningStream s spec dir rerr' := by
  simp [handleAlreadyRunningStream, h]

theorem handleActive_reusesPath_witness :
    (Streaming.Stream.mk "/stream/cam1/index" true).streakActive = true ∧
    ((handleAlreadyRunningStream ⟨"/stream/cam1/index", true⟩ ⟨"", false, 1⟩ "" none).restartCalls = 0 ∧
     (handleAlreadyRunningStream ⟨"/stream/cam1/index", true⟩ ⟨"", false, 1⟩ "" none).response =
       HttpResponse.ok "application/json" (marshalStreamDto "/stream/cam1/index") ∧
     handleAlreadyRunningStream ⟨"/stream/cam1/index", true⟩ ⟨"", false, 1⟩ "" none =
       handleAlreadyRunningStream ⟨"/stream/cam1/index", true⟩ ⟨"", false, 1⟩ "" (some "boom")) :=
  ⟨rfl, handleActive_reusesPath ⟨"/stream/cam1/index", true⟩ ⟨"", false, 1⟩ "" none (some "boom") rfl⟩

/-- C6: the router returned by GetRouter registers GET /list exactly when
the configuration's list-endpoint toggle is set, and registers POST /start
and GET /stream/*filepath for every configuration. -/
theorem getRouter_registrations (c : Specification) :
    ((⟨Method.get, "/list"⟩ : Route) ∈ (GetRouter c).1 ↔ c.listEndpoint = true) ∧
    (⟨Method.post, "/start"⟩ : Route) ∈ (GetRouter c).1 ∧
    (⟨Method.get, "/stream/*filepath"⟩ : Route) ∈ (GetRouter c).1 := by
  cases hc : c.listEndpoint <;> simp [GetRouter, hc]

/-- C7: the eviction sweep runs repeatedly on the configured fixed
interval: the first sweep begins one full `CleanupTime` period after the
loop is launched, and each later sweep begins exactly one `CleanupTime`
period after the previous sweep finished — every elapse of the configured
period is followed by one `cleanUnused` invocation. -/
theorem cleanupRunsEachPeriod (c : Specification) (dur : Nat → Nat) (n : Nat) :
    sweepBegin c dur 0 = c.cleanupTime ∧
    sweepBegin c dur (n + 1) = sweepFinish c dur n + c.cleanupTime := ⟨rfl, rfl⟩

/-- C8 counterexample: the cleaning loop cannot be terminated through any
stop signal: with shutdown requested at every iteration it has still
executed three sweeps after three periods, and the next iteration again
continues (is not an exit) despite the pending request. -/
theorem cleanupLoop_ignores_stop :
    cleanupLoopRun (fun _ => true) 3 = ⟨3⟩ ∧
    cleanupLoopStep true (cleanupLoopRun (fun _ => true) 3) = some ⟨4⟩ := by decide

/-- C8 (amended): the background cleaning task is an unmanaged
free-running loop with no cancellable lifecycle: under every schedule of
external stop requests it has performed exactly one sweep per elapsed
period and its next iteration is never a loop exit. -/
theorem cleanupLoop_free_running (stop : Nat → Bool) (n : Nat) :
    (cleanupLoopRun stop n).sweepsDone = n ∧
    cleanupLoopStep (stop n) (cleanupLoopRun stop n) ≠ none := by
  induction n with
  | zero => exact ⟨rfl, by simp [cleanupLoopStep]⟩
  | succ n ih =>
    refine ⟨?_, by simp [cleanupLoopStep]⟩
    show (match cleanupLoopStep (stop n) (cleanupLoopRun stop n) with
      | some s => s
      | none => cleanupLoopRun stop n).sweepsDone = n + 1
    simp [cleanupLoopStep, ih.1]

/-- C9: key derivation is deterministic: `determineHost` is a pure
function of the path, so equal request paths always derive equal keys
(stable for the lifetime of a session). -/
theorem determineHost_deterministic (p₁ p₂ : String) (h : p₁ = p₂) :
    determineHost p₁ = determineHost p₂ := by rw [h]

theorem determineHost_deterministic_witness :
    ("/cam1/index" : String) = "/cam1/index" ∧
    determineHost "/cam1/index" = determineHost "/cam1/index" :=
  ⟨rfl, determineHost_deterministic "/cam1/index" "/cam1/index" rfl⟩

/-- C10: sweep executions are strictly sequential and never overlap: for
any two sweeps m < n, the m-th has finished at least one full
`CleanupTime` period before the n-th begins; in particular consecutive
sweeps are separated by at least the configured period. -/
theorem sweeps_never_overlap (c : Specification) (dur : Nat → Nat) (m n : Nat)
    (h : m < n) :
    sweepFinish c dur m + c.cleanupTime ≤ sweepBegin c dur n := by
  induction n with
  | zero => exact absurd h (Nat.not_lt_zero m)
  | succ n ih =>
    have hstep : sweepBegin c dur (n + 1) = sweepBegin c dur n + dur n + c.cleanupTime := rfl
    rcases Nat.lt_succ_iff_lt_or_eq.mp h with h' | h'
    · have hle := ih h'
      omega
    · subst h'
      have hfin : sweepFinish c dur m = sweepBegin c dur m + dur m := rfl
      omega

theorem sweeps_never_overlap_witness :
    0 < 2 ∧
    sweepFinish ⟨"", false, 5⟩ (fun _ => 1) 0 + (Specification.mk "" false 5).cleanupTime ≤
      sweepBegin ⟨"", false, 5⟩ (fun _ => 1) 2 :=
  ⟨by decide, sweeps_never_overlap ⟨"", false, 5⟩ (fun _ => 1) 0 2 (by decide)⟩
